import Mathlib

/-!
Verification of the syncstation sync engine against its specification.

The Go source is shallowly embedded: file contents are strings, the
filesystem is a partial map from paths to file data, hashing is an
explicit function parameter (SHA-256 is injective for the purposes of
the engine, which only compares digests for equality), and every
stateful operation is a pure function from an engine state to a result
paired with the successor state.
-/

namespace SyncStation

/-- File contents, embedded as a string of bytes. -/
abbrev Content := String

/-- A hash digest string, `sha256:<hex>` in the implementation. -/
abbrev Hash := String

/-- A file on disk: contents, modification time, and mode bits.
Sizes are derived from the contents. -/
structure FileData where
  contents : Content
  modTime : Nat
  mode : Nat
deriving DecidableEq, Repr

/-- The filesystem: a partial map from absolute paths to files. -/
abbrev FileSystem := String → Option FileData

/-- Point update of a string-keyed partial map. -/
def updFn {α : Type} (f : String → Option α) (k : String) (v : α) : String → Option α :=
  fun p => if p = k then some v else f p

/-- Removal from a string-keyed partial map (`os.Remove`). -/
def remFn {α : Type} (f : String → Option α) (k : String) : String → Option α :=
  fun p => if p = k then none else f p

/-- Point update of a map keyed by (item name, file path). -/
def updFn2 {α : Type} (f : String → String → Option α) (k1 k2 : String) (v : α) :
    String → String → Option α :=
  fun a b => if a = k1 ∧ b = k2 then some v else f a b

/-- A single quote character, used in error messages. -/
def squote : String := String.singleton (Char.ofNat 39)

/-! ## Decision engine (src/internal/sync/sync.go, smartSyncItem + smartSyncFile) -/

/-- The four possible outcomes of the smart-sync decision engine. -/
inductive SyncDecision where
  | skip
  | pushLocalToCloud
  | pullCloudToLocal
  | conflict (reason : String)
deriving DecidableEq, Repr

/-- Inputs observed by the engine for one file of a file-kind item:
existence flags, content hashes, mtimes, and the recorded last cloud
hash (`FileMetadata.CloudHash`, the empty string when nothing is
recorded, mirroring the Go zero value). -/
structure DecisionInput where
  localExists : Bool
  cloudExists : Bool
  localHash : Hash
  cloudHash : Hash
  localModTime : Nat
  cloudModTime : Nat
  lastCloudHash : Hash
deriving DecidableEq, Repr

/-- The decision taken by `smartSyncItem` (existence scenarios) and
`smartSyncFile` (hash / metadata / mtime comparison), translated branch
by branch from src/internal/sync/sync.go lines 397-524. -/
def smartSyncDecision (i : DecisionInput) : SyncDecision :=
  if i.localExists = false ∧ i.cloudExists = false then
    .skip
  else if i.localExists = true ∧ i.cloudExists = false then
    .pushLocalToCloud
  else if i.localExists = false ∧ i.cloudExists = true then
    .pullCloudToLocal
  else if i.localHash = i.cloudHash then
    .skip
  else if i.lastCloudHash ≠ "" ∧ i.lastCloudHash = i.cloudHash then
    .pushLocalToCloud
  else if i.lastCloudHash ≠ "" ∧ i.lastCloudHash ≠ i.cloudHash then
    if i.localModTime > i.cloudModTime then
      .conflict "both modified"
    else
      .pullCloudToLocal
  else
    if i.localModTime > i.cloudModTime then
      .pushLocalToCloud
    else if i.cloudModTime > i.localModTime then
      .pullCloudToLocal
    else
      .conflict "same timestamp, different content"

/-- The decision rules exactly as the specification states them in
section 4.6, with absent sides as `none` (the spec's bottom): used to
compare the implementation against the spec. -/
def specSmartDecision (lh ch : Option Hash) (lm cm : Nat) (lastCloudHash : Option Hash) :
    SyncDecision :=
  match lh, ch with
  | none, none => .skip
  | some _, none => .pushLocalToCloud
  | none, some _ => .pullCloudToLocal
  | some l, some c =>
    if l = c then .skip
    else
      match lastCloudHash with
      | some a =>
        if a = c then .pushLocalToCloud
        else if lm > cm then .conflict "both modified"
        else .pullCloudToLocal
      | none =>
        if lm > cm then .pushLocalToCloud
        else if cm > lm then .pullCloudToLocal
        else .conflict "same timestamp, different content"

/-! ## Engine state and item-level operations (src/internal/sync/sync.go) -/

/-- Local per-file state (`config.FileState`): last committed local
hash, mtime, size, and check time. -/
structure FileState where
  localHash : Hash
  modTime : Nat
  size : Nat
  lastChecked : Nat
deriving DecidableEq, Repr

/-- Per-computer file info inside shared metadata
(`config.ComputerFileInfo`). -/
structure ComputerFileInfo where
  hash : Hash
  modTime : Nat
deriving DecidableEq, Repr

/-- Shared cloud metadata for one file (`config.FileMetadata`). The
zero values of the Go struct are empty strings and zero times. -/
structure FileMetadata where
  computers : String → Option ComputerFileInfo
  cloudHash : Hash
  cloudModTime : Nat
  lastUpdated : Nat
  updatedBy : String

/-- A freshly allocated `FileMetadata` record, as built by
`updateCloudHash` / `UpdateFileMetadata` when none exists. -/
def emptyFileMetadata : FileMetadata :=
  ⟨fun _ => none, "", 0, 0, ""⟩

/-- The state the sync engine reads and writes: the filesystem, the
local file-state document and the shared metadata document (both keyed
by item name and file path). -/
structure EngineState where
  fs : FileSystem
  fileStates : String → String → Option FileState
  metadata : String → String → Option FileMetadata

/-- The result of one sync operation (`sync.SyncResult`). -/
structure SyncResultM where
  success : Bool
  filesChanged : Nat
  filesSkipped : Nat
  filesErrored : Nat
  errors : List String
  message : String
deriving DecidableEq, Repr

/-- `SyncEngine.updateFileMetadata`: refresh `FileState` and the
`computers[self]` record of the shared metadata after a successful file
operation. -/
def updateFileMetadataOp (self : String) (now : Nat) (item path : String)
    (modTime size : Nat) (hash : Hash) (st : EngineState) : EngineState :=
  let newState : FileState := ⟨hash, modTime, size, now⟩
  let oldMd := (st.metadata item path).getD emptyFileMetadata
  let newMd : FileMetadata :=
    { oldMd with
        computers := updFn oldMd.computers self ⟨hash, modTime⟩
        lastUpdated := now
        updatedBy := self }
  { st with
      fileStates := updFn2 st.fileStates item path newState
      metadata := updFn2 st.metadata item path newMd }

/-- `SyncEngine.updateCloudHash`: record the digest and mtime of the
cloud copy after a push. -/
def updateCloudHashOp (self : String) (now : Nat) (item path : String)
    (cloudHash : Hash) (cloudModTime : Nat) (st : EngineState) : EngineState :=
  let oldMd := (st.metadata item path).getD emptyFileMetadata
  let newMd : FileMetadata :=
    { oldMd with
        cloudHash := cloudHash
        cloudModTime := cloudModTime
        updatedBy := self
        lastUpdated := now }
  { st with metadata := updFn2 st.metadata item path newMd }

/-- Net effect of `copyFile(src, dst)` on the filesystem: the
destination receives the source contents and mode; its mtime becomes
the time of the write. (The intermediate, non-atomic states of this
copy are modelled separately by `copyFileStates`.) -/
def copyFileFs (now : Nat) (src dst : String) (fs : FileSystem) : Option FileSystem :=
  match fs src with
  | none => none
  | some sf => some (updFn fs dst ⟨sf.contents, now, sf.mode⟩)

/-- A successful item-level result with the given counters
(`Success` is always `true` at item level in the Go code; only
`SyncAll` recomputes it). -/
def mkResult (changed skipped errored : Nat) (errs : List String) (msg : String) :
    SyncResultM :=
  ⟨true, changed, skipped, errored, errs, msg⟩

/-- `SyncEngine.isFileChanged`: a file counts as changed when no
`FileState` is recorded for it or the recorded hash differs from the
current local hash. -/
def isFileChanged (hashFn : Content → Hash) (item path : String)
    (st : EngineState) (contents : Content) : Bool :=
  match st.fileStates item path with
  | none => true
  | some fstate => fstate.localHash != hashFn contents

/-- `SyncEngine.pushItem` for a file-kind item, translated from
src/internal/sync/sync.go lines 229-321: error when the local path does
not exist, skip when `isFileChanged` is false, otherwise copy local to
cloud, update `FileState` and `computers[self]`, then record the local
hash as the new cloud hash with the cloud file's mtime. -/
def pushItem (hashFn : Content → Hash) (self : String) (now : Nat)
    (item localPath cloudPath : String) (st : EngineState) :
    Except String SyncResultM × EngineState :=
  match st.fs localPath with
  | none => (.error ("local path does not exist: " ++ localPath), st)
  | some lf =>
    if isFileChanged hashFn item localPath st lf.contents = false then
      (.ok (mkResult 0 1 0 [] (item ++ " unchanged - skipped")), st)
    else
      let st1 : EngineState :=
        { st with fs := updFn st.fs cloudPath ⟨lf.contents, now, lf.mode⟩ }
      let res := mkResult 1 0 0 [] ("Pushed " ++ item ++ " to cloud")
      match st1.fs localPath with
      | none => (.ok res, st1)
      | some lf2 =>
        let lh := hashFn lf2.contents
        let st2 := updateFileMetadataOp self now item localPath lf2.modTime
          lf2.contents.utf8ByteSize lh st1
        match st2.fs cloudPath with
        | none => (.ok res, st2)
        | some cf => (.ok res, updateCloudHashOp self now item localPath lh cf.modTime st2)

/-- `SyncEngine.pullItem` for a file-kind item (lines 324-394): error
when the cloud path does not exist, otherwise copy cloud to local and
update `FileState` and `computers[self]`. -/
def pullItem (hashFn : Content → Hash) (self : String) (now : Nat)
    (item localPath cloudPath : String) (st : EngineState) :
    Except String SyncResultM × EngineState :=
  match st.fs cloudPath with
  | none => (.error ("cloud path does not exist: " ++ cloudPath), st)
  | some cf =>
    let st1 : EngineState :=
      { st with fs := updFn st.fs localPath ⟨cf.contents, now, cf.mode⟩ }
    let res := mkResult 1 0 0 [] ("Pulled " ++ item ++ " from cloud")
    match st1.fs localPath with
    | none => (.ok res, st1)
    | some lf2 =>
      let lh := hashFn lf2.contents
      (.ok res, updateFileMetadataOp self now item localPath lf2.modTime
        lf2.contents.utf8ByteSize lh st1)

/-- `SyncEngine.smartSyncFile` (lines 432-524): hash comparison first,
then the recorded cloud hash, then mtimes. Conflict outcomes append to
the error list but leave `FilesErrored` at zero and do not touch any
file. -/
def smartSyncFile (hashFn : Content → Hash) (self : String) (now : Nat)
    (item localPath cloudPath : String) (st : EngineState) :
    Except String SyncResultM × EngineState :=
  match st.fs localPath with
  | none => (.error "failed to calculate local file hash", st)
  | some lf =>
    match st.fs cloudPath with
    | none => (.error "failed to calculate cloud file hash", st)
    | some cf =>
      let localHash := hashFn lf.contents
      let cloudHash := hashFn cf.contents
      if localHash = cloudHash then
        let st1 := updateFileMetadataOp self now item localPath lf.modTime
          lf.contents.utf8ByteSize localHash st
        (.ok (mkResult 0 1 0 [] (item ++ " is already in sync (hash match)")), st1)
      else
        let lastKnownCloudHash :=
          match st.metadata item localPath with
          | some md => md.cloudHash
          | none => ""
        if lastKnownCloudHash ≠ "" ∧ lastKnownCloudHash = cloudHash then
          pushItem hashFn self now item localPath cloudPath st
        else if lastKnownCloudHash ≠ "" ∧ lastKnownCloudHash ≠ cloudHash then
          if lf.modTime > cf.modTime then
            (.ok (mkResult 0 0 0
              ["Both local and cloud files have been modified since last sync"]
              ("Conflict detected for " ++ item ++ " - both files modified")), st)
          else
            pullItem hashFn self now item localPath cloudPath st
        else
          if lf.modTime > cf.modTime then
            pushItem hashFn self now item localPath cloudPath st
          else if cf.modTime > lf.modTime then
            pullItem hashFn self now item localPath cloudPath st
          else
            (.ok (mkResult 0 0 0
              ["Files have same timestamp but different content - manual resolution needed"]
              ("Conflict detected for " ++ item ++ " - same timestamp, different content")), st)

/-- `SyncEngine.smartSyncItem` (lines 397-429) for a file-kind item:
existence scenarios first, then the hash-based comparison. -/
def smartSyncItem (hashFn : Content → Hash) (self : String) (now : Nat)
    (item localPath cloudPath : String) (st : EngineState) :
    Except String SyncResultM × EngineState :=
  let localExists := (st.fs localPath).isSome
  let cloudExists := (st.fs cloudPath).isSome
  if localExists = false ∧ cloudExists = false then
    (.ok (mkResult 0 0 0 [] ("Neither local nor cloud exists for " ++ item)), st)
  else if localExists = true ∧ cloudExists = false then
    pushItem hashFn self now item localPath cloudPath st
  else if localExists = false ∧ cloudExists = true then
    pullItem hashFn self now item localPath cloudPath st
  else
    smartSyncFile hashFn self now item localPath cloudPath st

/-! ## Items, slugs and the engine entry point -/

/-- A sync item (`config.SyncItem`), file-kind unless stated otherwise:
paths maps computer ids to local paths. -/
structure SyncItem where
  name : String
  type : String
  paths : String → Option String
  excludePatterns : List String

/-- The three engine operations (`sync.SyncOperation`). -/
inductive SyncOperation where
  | push
  | pull
  | smart
deriving DecidableEq, Repr

/-- `strings.ReplaceAll` with a single-character pattern and a
single-character replacement: the per-character substitution it
performs. -/
def replaceAllChar (s : String) (a b : Char) : String :=
  String.mk (s.data.map fun c => if c = a then b else c)

/-- The slug of an item name (`SyncItem.GetCloudPath`): ASCII space and
slash replaced by a hyphen, nothing else. -/
def slugName (name : String) : String :=
  replaceAllChar (replaceAllChar name ' ' '-') '/' '-'

/-- The per-character action of the slug: space and slash become a
hyphen, everything else is untouched. -/
def slugChar (c : Char) : Char :=
  if c = ' ' then '-' else if c = '/' then '-' else c

/-- `SyncItem.GetCloudPath`: the rendezvous path of an item under the
configs directory. `filepath.Join` is modelled by slash concatenation. -/
def getCloudPath (item : SyncItem) (cloudConfigsPath : String) : String :=
  cloudConfigsPath ++ "/" ++ slugName item.name

/-- `SyncItemsData.AddSyncItem` (src/internal/config/models.go lines
194-212): reject a duplicate name, otherwise append the new item to the
registry. No other check is performed at add time. -/
def addSyncItem (items : List SyncItem) (name itemType : String)
    (paths : String → Option String) (excludePatterns : List String) :
    Except String (List SyncItem) :=
  if items.any (fun it => it.name == name) then
    .error ("sync item with name " ++ squote ++ name ++ squote ++ " already exists")
  else
    .ok (items ++ [⟨name, itemType, paths, excludePatterns⟩])

/-- `SyncItem.GetCurrentComputerPath`: the (expanded) local path for a
computer id, or the empty string when no entry exists. Tilde and
environment expansion is the `expand` parameter. -/
def getCurrentComputerPath (expand : String → String) (item : SyncItem)
    (computerID : String) : String :=
  match item.paths computerID with
  | some p => expand p
  | none => ""

/-- `SyncEngine.SyncItem` (lines 205-226): resolve the local path for
the current computer, failing with an error naming that computer when
none is configured, then dispatch on the operation. -/
def syncItemOp (hashFn : Content → Hash) (expand : String → String)
    (self : String) (now : Nat) (cloudConfigsPath : String)
    (op : SyncOperation) (item : SyncItem) (st : EngineState) :
    Except String SyncResultM × EngineState :=
  let localPath := getCurrentComputerPath expand item self
  if localPath = "" then
    (.error ("no path configured for computer " ++ squote ++ self ++ squote), st)
  else
    let cloudPath := getCloudPath item cloudConfigsPath
    match op with
    | .push => pushItem hashFn self now item.name localPath cloudPath st
    | .pull => pullItem hashFn self now item.name localPath cloudPath st
    | .smart => smartSyncItem hashFn self now item.name localPath cloudPath st

/-! ## Observable states of the non-atomic copy (sync.go copyFile) -/

/-- The sequence of filesystem states another process can observe while
`copyFile(src, dst)` (src/internal/sync/sync.go lines 561-591) runs:
the initial state, the state right after `os.Create(dst)` truncates the
destination in place (mode 0666 before umask), the state after
`io.Copy` has streamed the source bytes, and the state after `Chmod`
copies the source mode. When opening the source fails nothing is
created. -/
def copyFileStates (now : Nat) (src dst : String) (fs : FileSystem) : List FileSystem :=
  match fs src with
  | none => [fs]
  | some sf =>
    [fs,
     updFn fs dst ⟨"", now, 438⟩,
     updFn fs dst ⟨sf.contents, now, 438⟩,
     updFn fs dst ⟨sf.contents, now, sf.mode⟩]

/-! ## Hash cache (cache package, HashCache) -/

/-- One cached hash entry (`cache.HashCacheEntry`). -/
structure HashCacheEntry where
  hash : Hash
  size : Nat
  modTime : Nat
  cachedAt : Nat
deriving DecidableEq, Repr

/-- The hash cache: entries keyed by path plus the configured maximum
age. -/
structure HashCache where
  entries : String → Option HashCacheEntry
  maxAge : Nat

/-- What `os.Stat` reports for a path: size and mtime, derived from the
filesystem. -/
def statOf (fs : FileSystem) (p : String) : Option (Nat × Nat) :=
  match fs p with
  | none => none
  | some f => some (f.contents.utf8ByteSize, f.modTime)

/-- `HashCache.Get` (cache package lines 54-80): a cached hash is
returned only when the entry exists, is no older than `maxAge`, the
stat succeeds, and both size and mtime still match. -/
def HashCache.get (hc : HashCache) (fs : FileSystem) (now : Nat) (p : String) :
    Option Hash :=
  match hc.entries p with
  | none => none
  | some e =>
    if now - e.cachedAt > hc.maxAge then none
    else
      match statOf fs p with
      | none => none
      | some info =>
        if info.1 ≠ e.size ∨ info.2 ≠ e.modTime then none
        else some e.hash

/-- `HashCache.Set`: store a hash with the observed size and mtime,
stamped at the current time. -/
def HashCache.set (hc : HashCache) (now : Nat) (p : String) (h : Hash)
    (size modTime : Nat) : HashCache :=
  { hc with entries := updFn hc.entries p ⟨h, size, modTime, now⟩ }

/-- `HashCache.GetOrCalculate` (lines 96-118): return the cached hash
when `Get` finds one, otherwise recompute the SHA-256 over the file
bytes, stat the file, cache the result and return it. -/
def HashCache.getOrCalculate (hashFn : Content → Hash) (hc : HashCache)
    (fs : FileSystem) (now : Nat) (p : String) :
    Except String (Hash × HashCache) :=
  match hc.get fs now p with
  | some h => .ok (h, hc)
  | none =>
    match fs p with
    | none => .error "open failed"
    | some f =>
      let h := hashFn f.contents
      match statOf fs p with
      | none => .error "stat failed"
      | some info => .ok (h, hc.set now p h info.1 info.2)

/-- The cache validity predicate as the specification states it: the
entry exists, its age is at most `maxAge`, and the current stat reports
the same size and mtime that were recorded. -/
def cacheValid (hc : HashCache) (fs : FileSystem) (now : Nat) (p : String)
    (e : HashCacheEntry) : Prop :=
  hc.entries p = some e ∧ now - e.cachedAt ≤ hc.maxAge ∧
    statOf fs p = some (e.size, e.modTime)

/-! ## Atomic file writer (atomic package, FileWriter) -/

/-- `atomic.FileWriter`: the target, the sibling temp path, whether the
temp file handle is still open, and whether `Commit` already ran. -/
structure FileWriter where
  targetPath : String
  tempPath : String
  tempOpen : Bool
  committed : Bool
deriving DecidableEq, Repr

/-- `atomic.NewFileWriter`: create the temp file (empty, with the
requested permissions) and an uncommitted writer for it. -/
def newFileWriter (target temp : String) (perm now : Nat) (fs : FileSystem) :
    FileWriter × FileSystem :=
  (⟨target, temp, true, false⟩, updFn fs temp ⟨"", now, perm⟩)

/-- `FileWriter.Write`: append bytes to the temp file; fails when the
writer is closed. -/
def fwWrite (w : FileWriter) (data : Content) (fs : FileSystem) :
    Except String FileSystem :=
  if w.tempOpen = false then .error "file writer is closed"
  else
    match fs w.tempPath with
    | none => .error "failed to write to temporary file"
    | some tf => .ok (updFn fs w.tempPath ⟨tf.contents ++ data, tf.modTime, tf.mode⟩)

/-- `FileWriter.Commit` (atomic package lines 154-214): refuse a second
commit, refuse a closed writer, otherwise close the temp file and
rename it onto the target in one atomic step. -/
def fwCommit (w : FileWriter) (fs : FileSystem) :
    Except String (FileWriter × FileSystem) :=
  if w.committed = true then .error "file already committed"
  else if w.tempOpen = false then .error "file writer is closed"
  else
    match fs w.tempPath with
    | none => .error "failed to move temporary file to target"
    | some tf =>
      .ok ({ w with tempOpen := false, committed := true },
        updFn (remFn fs w.tempPath) w.targetPath tf)

/-- `FileWriter.Rollback`: close the handle and remove the temp file;
the target is never touched. -/
def fwRollback (w : FileWriter) (fs : FileSystem) : FileWriter × FileSystem :=
  ({ w with tempOpen := false }, remFn fs w.tempPath)

/-- `atomic.WriteFileAtomic` (lines 513-525): create a writer, write
the data, commit. Returns the final writer and filesystem. -/
def writeFileAtomic (target temp : String) (data : Content) (perm now : Nat)
    (fs : FileSystem) : Except String (FileWriter × FileSystem) :=
  let (w, fs1) := newFileWriter target temp perm now fs
  match fwWrite w data fs1 with
  | .error e => .error e
  | .ok fs2 => fwCommit w fs2

/-- Every filesystem state another reader can observe while
`WriteFileAtomic` runs: before anything, after the temp file is
created, after the data is written to the temp file, and after the
rename. -/
def writeFileAtomicStates (target temp : String) (data : Content) (perm now : Nat)
    (fs : FileSystem) : List FileSystem :=
  let (w, fs1) := newFileWriter target temp perm now fs
  match fwWrite w data fs1 with
  | .error _ => [fs, fs1]
  | .ok fs2 =>
    match fwCommit w fs2 with
    | .error _ => [fs, fs1, fs2]
    | .ok (_, fs3) => [fs, fs1, fs2, fs3]

/-! ## Backup manager (src/internal/backup/manager.go) -/

/-- One backup manifest entry (`backup.BackupEntry`). -/
structure BackupEntry where
  id : String
  itemName : String
  originalPath : String
  backupPath : String
  hash : Hash
  size : Nat
  createdAt : Nat
  createdBy : String
  reason : String
  tags : List String
deriving DecidableEq, Repr

/-- Backup manager configuration: directory and the age/count eviction
limits. -/
structure BackupConfig where
  backupDir : String
  maxBackups : Nat
  maxAge : Nat
deriving DecidableEq, Repr

/-- `BackupManager.generateBackupID`: item name with spaces and slashes
replaced by underscores, the timestamp, and eight hex characters of the
digest after the `sha256:` tag. -/
def generateBackupID (item : String) (now : Nat) (h : Hash) : String :=
  let safeName := replaceAllChar (replaceAllChar item ' ' '_') '/' '_'
  safeName ++ "_" ++ toString now ++ "_" ++ ((h.drop 7).take 8)

/-- The content-addressing key of a manifest entry. -/
def backupKey (e : BackupEntry) : String × Hash :=
  (e.itemName, e.hash)

/-- Refresh the first manifest entry matching (item, hash) in place,
as the dedup loop of `BackupFile` does through the entry pointer. -/
def refreshFirst (item : String) (h : Hash) (now : Nat) (reason : String)
    (tags : List String) : List BackupEntry → List BackupEntry
  | [] => []
  | e :: rest =>
    if e.itemName = item ∧ e.hash = h then
      { e with createdAt := now, reason := reason, tags := tags } :: rest
    else
      e :: refreshFirst item h now reason tags rest

/-- Remove the first manifest entry with the given id
(the deletion loop of `cleanupOldBackups`). -/
def removeFirstById (bid : String) : List BackupEntry → List BackupEntry
  | [] => []
  | e :: rest => if e.id = bid then rest else e :: removeFirstById bid rest

/-- Delete one backup by id: drop its manifest entry and its payload
file, when the id is present. -/
def deleteEntryById (p : List BackupEntry × FileSystem) (bid : String) :
    List BackupEntry × FileSystem :=
  match p.1.find? (fun e => e.id == bid) with
  | none => p
  | some e => (removeFirstById bid p.1, remFn p.2 e.backupPath)

/-- `BackupManager.cleanupOldBackups`: sort this item's entries newest
first, mark entries older than `maxAge` or at index at least
`maxBackups` and delete each marked id. -/
def cleanupOldBackups (cfg : BackupConfig) (now : Nat) (item : String)
    (entries : List BackupEntry) (fs : FileSystem) :
    List BackupEntry × FileSystem :=
  let itemBackups := entries.filter (fun e => e.itemName == item)
  let sorted := itemBackups.insertionSort (fun a b => b.createdAt < a.createdAt)
  let toDelete :=
    (sorted.enum.filter
      (fun ie => (now - ie.2.createdAt > cfg.maxAge) || (ie.1 ≥ cfg.maxBackups))).map
      (fun ie => ie.2.id)
  toDelete.foldl deleteEntryById (entries, fs)

/-- `BackupManager.BackupFile` (manager.go lines 88-196): hash the
file; when an entry for (item, hash) already exists refresh its
timestamp, reason and tags and return it without copying anything;
otherwise copy the payload, append a new entry and run eviction. -/
def backupFile (hashFn : Content → Hash) (cfg : BackupConfig) (self : String)
    (now : Nat) (item filePath reason : String) (tags : List String)
    (entries : List BackupEntry) (fs : FileSystem) :
    Except String (BackupEntry × List BackupEntry × FileSystem) :=
  match fs filePath with
  | none => .error "file does not exist"
  | some f =>
    let h := hashFn f.contents
    let backupID := generateBackupID item now h
    let backupPath := cfg.backupDir ++ "/files/" ++ backupID
    match entries.find? (fun e => e.itemName == item && e.hash == h) with
    | some e =>
      .ok ({ e with createdAt := now, reason := reason, tags := tags },
        refreshFirst item h now reason tags entries, fs)
    | none =>
      let fs1 := updFn fs backupPath ⟨f.contents, now, f.mode⟩
      let entry : BackupEntry :=
        ⟨backupID, item, filePath, backupPath, h, f.contents.utf8ByteSize,
          now, self, reason, tags⟩
      let (entries2, fs2) := cleanupOldBackups cfg now item (entries ++ [entry]) fs1
      .ok (entry, entries2, fs2)

/-- The manifest invariant of the specification: at most one entry per
(item name, hash) pair. -/
def manifestDedupInv (entries : List BackupEntry) : Prop :=
  (entries.map backupKey).Nodup

/-- One call to the backup manager: which item and path to back up,
with which reason, tags and clock reading. -/
structure BackupCall where
  item : String
  path : String
  reason : String
  tags : List String
  now : Nat

/-- Run a sequence of `BackupFile` calls, keeping the previous state
when a call errors. -/
def runBackups (hashFn : Content → Hash) (cfg : BackupConfig) (self : String) :
    List BackupCall → List BackupEntry × FileSystem → List BackupEntry × FileSystem
  | [], s => s
  | c :: rest, (m, fs) =>
    match backupFile hashFn cfg self c.now c.item c.path c.reason c.tags m fs with
    | .ok (_, m2, fs2) => runBackups hashFn cfg self rest (m2, fs2)
    | .error _ => runBackups hashFn cfg self rest (m, fs)

/-! ## Name validator (validation package, NameValidator) -/

/-- The character class of the validator regexp
`[a-zA-Z0-9\s\-_.]` where RE2's Perl class `\s` is
tab, newline, form feed, carriage return and space. -/
def nameCharAllowed (c : Char) : Bool :=
  c.isAlphanum || c = '\t' || c = '\n' || c = '\x0c' || c = '\r' || c = ' ' ||
    c = '-' || c = '_' || c = '.'

/-- The whitespace class of Go `strings.TrimSpace` restricted to ASCII
(`unicode.IsSpace`); characters outside this ASCII set cannot pass the
regexp check anyway. -/
def goIsSpace (c : Char) : Bool :=
  c = ' ' || c = '\t' || c = '\n' || c = '\x0b' || c = '\x0c' || c = '\r'

/-- Go `strings.TrimSpace` on a character list. -/
def goTrimSpace (l : List Char) : List Char :=
  ((l.dropWhile goIsSpace).reverse.dropWhile goIsSpace).reverse

/-- Go `strings.ToUpper`: upper-case each rune. -/
def goToUpper (s : String) : String :=
  String.mk (s.data.map Char.toUpper)

/-- The reserved-name list of `NewNameValidator`. -/
def reservedNames : List String :=
  ["CON", "PRN", "AUX", "NUL", "COM1", "COM2", "COM3", "COM4", "COM5",
   "COM6", "COM7", "COM8", "COM9", "LPT1", "LPT2", "LPT3", "LPT4", "LPT5",
   "LPT6", "LPT7", "LPT8", "LPT9"]

/-- `NameValidator.ValidateName` (validation package lines 188-230),
checks in source order: non-empty, at most 100 bytes, every character
in the regexp class, no leading or trailing whitespace, upper-cased
form not reserved, no two consecutive spaces. Returns `true` when the
name is accepted. -/
def validateName (name : String) : Bool :=
  if name = "" then false
  else if name.utf8ByteSize > 100 then false
  else if (name.data.all nameCharAllowed) = false then false
  else if goTrimSpace name.data ≠ name.data then false
  else if reservedNames.contains (goToUpper name) then false
  else if ([' ', ' '] <:+: name.data) then false
  else true

/-- The character set the specification claims the validator enforces:
ASCII letters, digits, space, dot, underscore and hyphen — without the
extra whitespace characters the implementation's regexp class admits. -/
def claimNameChar (c : Char) : Bool :=
  c.isAlphanum || c = ' ' || c = '.' || c = '_' || c = '-'

/-- The acceptance condition of the validator stated declaratively, as
the amended claim reads it: non-empty, at most 100 bytes, characters in
the implementation's class, no whitespace at either end, upper-cased
form not reserved, and no two consecutive spaces. -/
def specValidName (name : String) : Prop :=
  name ≠ "" ∧
  name.utf8ByteSize ≤ 100 ∧
  (∀ c ∈ name.data, nameCharAllowed c = true) ∧
  name.data.head?.all (fun c => !goIsSpace c) = true ∧
  name.data.getLast?.all (fun c => !goIsSpace c) = true ∧
  goToUpper name ∉ reservedNames ∧
  ¬ [' ', ' '] <:+: name.data

instance specValidNameDecidable (name : String) : Decidable (specValidName name) := by
  unfold specValidName
  infer_instance

/-! ## Concrete fixtures used by witnesses and counterexamples -/

/-- A filesystem with a local file at `L` and a cloud file at `C`,
holding different contents but equal mtimes (Scenario D of the spec
with the two edits landing at the same timestamp). -/
def c4fs : FileSystem := fun p =>
  if p = "L" then some ⟨"set ts=8", 5, 420⟩
  else if p = "C" then some ⟨"set ts=2", 5, 420⟩
  else none

/-- Shared metadata recording the pre-edit cloud hash, which differs
from the current cloud hash. -/
def c4md : FileMetadata :=
  { emptyFileMetadata with cloudHash := "set ts=4" }

/-- Engine state for the both-modified, equal-mtime scenario. -/
def c4st : EngineState :=
  ⟨c4fs, fun _ _ => none,
    fun i p => if i = "Vim" ∧ p = "L" then some c4md else none⟩

/-- A sync item with no path entry for any computer. -/
def itemNoPath : SyncItem :=
  ⟨"Vim", "file", fun _ => none, []⟩

/-- An engine state with an empty filesystem and empty documents. -/
def stEmpty : EngineState :=
  ⟨fun _ => none, fun _ _ => none, fun _ _ => none⟩

/-- State for refuting the universal push-mirror claim: the local file
is unchanged since the recorded FileState, but the cloud copy holds
different bytes. -/
def c3cst : EngineState :=
  ⟨fun p =>
      if p = "L" then some ⟨"set ts=4", 3, 420⟩
      else if p = "C" then some ⟨"other", 2, 420⟩
      else none,
    fun i p => if i = "Vim" ∧ p = "L" then some ⟨"set ts=4", 3, 8, 1⟩ else none,
    fun _ _ => none⟩

/-- State for the amended push theorem's witness: a local file with no
recorded FileState, and no cloud copy. -/
def c3st : EngineState :=
  ⟨fun p => if p = "L" then some ⟨"set ts=4", 3, 420⟩ else none,
    fun _ _ => none, fun _ _ => none⟩

/-- Filesystem for the interrupted-copy scenario: a local source with
new bytes and a pre-existing cloud target with old bytes. -/
def c2fs : FileSystem := fun p =>
  if p = "Lv" then some ⟨"new", 7, 420⟩
  else if p = "Cv" then some ⟨"old", 2, 420⟩
  else none

/-- A one-file filesystem for the hash-cache witness. -/
def c5fs : FileSystem := fun p =>
  if p = "L" then some ⟨"set ts=4", 3, 420⟩ else none

/-- A hash cache holding a matching entry for that file, cached at time
4 with maximum age 10. -/
def c5hc : HashCache :=
  ⟨fun p => if p = "L" then some ⟨"set ts=4", 8, 3, 4⟩ else none, 10⟩

/-- The registry after adding the item named a-space-b. -/
def c8items1 : List SyncItem :=
  [⟨"a b", "file", fun _ => none, []⟩]

/-- A filesystem holding one file to back up. -/
def c7fs : FileSystem := fun p =>
  if p = "f" then some ⟨"a", 1, 420⟩ else none

/-- An existing manifest entry for that file's contents. -/
def c7e0 : BackupEntry :=
  ⟨"id0", "It", "f", "bk/files/id0", "a", 1, 0, "h1", "r0", []⟩

/-- A backup configuration with room for fifty entries. -/
def c7cfg : BackupConfig := ⟨"bk", 50, 100⟩

/-! ## Theorems -/

/-- `goTrimSpace` written through `List.rdropWhile`. -/
theorem goTrimSpace_eq_rdrop (l : List Char) :
    goTrimSpace l = List.rdropWhile goIsSpace (l.dropWhile goIsSpace) := rfl

/-- The head-side fixpoint condition of `dropWhile`, phrased on
`head?`. -/
theorem head_all_iff (p : Char → Bool) (l : List Char) :
    l.head?.all (fun c => !p c) = true ↔ ∀ hl : 0 < l.length, ¬ p (l.get ⟨0, hl⟩) := by
  cases l <;> simp

/-- The last-side fixpoint condition of `rdropWhile`, phrased on
`getLast?`. -/
theorem getLast_all_iff (p : Char → Bool) (l : List Char) :
    l.getLast?.all (fun c => !p c) = true ↔ ∀ hl : l ≠ [], ¬ p (l.getLast hl) := by
  cases l with
  | nil => simp
  | cons a t =>
    rw [List.getLast?_eq_getLast (a :: t) (by simp)]
    simp

/-- `strings.TrimSpace` leaves a string unchanged exactly when neither
end is whitespace. -/
theorem goTrimSpace_eq_self_iff (l : List Char) :
    goTrimSpace l = l ↔
      (l.head?.all (fun c => !goIsSpace c) = true ∧
       l.getLast?.all (fun c => !goIsSpace c) = true) := by
  constructor
  · intro htrim
    have hpre : goTrimSpace l <+: l.dropWhile goIsSpace := by
      rw [goTrimSpace_eq_rdrop]
      exact List.rdropWhile_prefix _ _
    have hsuf : (l.dropWhile goIsSpace) <:+ l := List.dropWhile_suffix _
    have hlen1 : l.length ≤ (l.dropWhile goIsSpace).length := by
      have hle := hpre.length_le
      rwa [htrim] at hle
    have hdrop : l.dropWhile goIsSpace = l :=
      hsuf.eq_of_length (le_antisymm hsuf.length_le hlen1)
    have hr : List.rdropWhile goIsSpace l = l := by
      rw [goTrimSpace_eq_rdrop, hdrop] at htrim
      exact htrim
    exact ⟨(head_all_iff _ _).2 (List.dropWhile_eq_self_iff.1 hdrop),
      (getLast_all_iff _ _).2 (List.rdropWhile_eq_self_iff.1 hr)⟩
  · rintro ⟨hh, hl⟩
    have hdrop : l.dropWhile goIsSpace = l :=
      List.dropWhile_eq_self_iff.2 ((head_all_iff _ _).1 hh)
    rw [goTrimSpace_eq_rdrop, hdrop]
    exact List.rdropWhile_eq_self_iff.2 ((getLast_all_iff _ _).1 hl)

/-- C9, counterexample: the validator accepts a name containing a tab,
although a tab is outside the character set the claim says is enforced.
The regexp class uses RE2's whitespace class, which admits it. -/
theorem c9_validator_counterexample :
    validateName "a\tb" = true ∧ claimNameChar '\t' = false := by
  decide

/-- C9, amended: the validator accepts exactly the names that are
non-empty, at most 100 bytes, drawn from the regexp class (ASCII
letters, digits, dot, underscore, hyphen, and the whitespace characters
tab, newline, form feed, carriage return and space), have no whitespace
at either end, are not a reserved device name once upper-cased, and
contain no two consecutive spaces; every other name is rejected. -/
theorem c9_validator_amended (name : String) :
    validateName name = true ↔ specValidName name := by
  unfold validateName specValidName
  split_ifs with h1 h2 h3 h4 h5 h6
  · simp only [false_iff]
    rintro ⟨hne, -⟩
    exact hne h1
  · simp only [false_iff]
    rintro ⟨-, hle, -⟩
    omega
  · simp only [false_iff]
    rintro ⟨-, -, hall, -⟩
    rw [List.all_eq_true.2 hall] at h3
    exact Bool.noConfusion h3
  · simp only [false_iff]
    rintro ⟨-, -, -, hh, hl, -⟩
    exact h4 ((goTrimSpace_eq_self_iff name.data).2 ⟨hh, hl⟩)
  · simp only [false_iff]
    rintro ⟨-, -, -, -, -, hres, -⟩
    exact hres (by simpa using h5)
  · simp only [false_iff]
    rintro ⟨-, -, -, -, -, -, hcons⟩
    exact hcons h6
  · simp only [true_iff]
    obtain ⟨hh, hl⟩ := (goTrimSpace_eq_self_iff name.data).1 (not_not.mp h4)
    refine ⟨h1, by omega, ?_, hh, hl, ?_, h6⟩
    · refine List.all_eq_true.1 ?_
      have ht : name.data.all nameCharAllowed = true := by simpa using h3
      exact ht
    · intro hmem
      exact h5 (by simpa using hmem)

/-- Witness for the amended C9 theorem at a concrete accepted name. -/
theorem c9_validator_amended_witness :
    specValidName "Vim Config" ∧ validateName "Vim Config" = true :=
  ⟨by decide, (c9_validator_amended "Vim Config").2 (by decide)⟩

/-- Every accepted name is drawn from the validator's character
class. -/
theorem validateName_chars (n : String) (h : validateName n = true) :
    ∀ c ∈ n.data, nameCharAllowed c = true := by
  unfold validateName at h
  split_ifs at h with h1 h2 h3 h4 h5 h6
  all_goals first
    | exact Bool.noConfusion h
    | · intro c hc
        refine List.all_eq_true.1 ?_ c hc
        have ht : n.data.all nameCharAllowed = true := by simpa using h3
        exact ht

/-- The slug as a single per-character map. -/
theorem slugName_eq_map (n : String) :
    slugName n = String.mk (n.data.map slugChar) := by
  simp only [slugName, replaceAllChar, List.map_map]
  have hcomp :
      ((fun c => if c = '/' then '-' else c) ∘ fun c => if c = ' ' then '-' else c) =
        slugChar := by
    funext c
    by_cases hsp : c = ' ' <;> by_cases hsl : c = '/' <;>
      simp [slugChar, hsp, hsl]
  rw [hcomp]

/-- The slug map is injective on lists of characters containing neither
a hyphen nor a slash. -/
theorem slugChar_inj_on (l1 : List Char) :
    ∀ (l2 : List Char), '-' ∉ l1 → '-' ∉ l2 → '/' ∉ l1 → '/' ∉ l2 →
      l1.map slugChar = l2.map slugChar → l1 = l2 := by
  induction l1 with
  | nil =>
    intro l2 _ _ _ _ h
    cases l2 with
    | nil => rfl
    | cons b t2 => simp at h
  | cons a t ih =>
    intro l2 d1 d2 s1 s2 h
    cases l2 with
    | nil => simp at h
    | cons b t2 =>
      simp only [List.map_cons, List.cons.injEq] at h
      have hd1 : a ≠ '-' := fun hc => d1 (by rw [← hc] at *; exact List.mem_cons_self a t)
      have hd2 : b ≠ '-' := fun hc => d2 (by rw [← hc] at *; exact List.mem_cons_self b t2)
      have hs1 : a ≠ '/' := fun hc => s1 (by rw [← hc] at *; exact List.mem_cons_self a t)
      have hs2 : b ≠ '/' := fun hc => s2 (by rw [← hc] at *; exact List.mem_cons_self b t2)
      have ha := h.1
      have hab : a = b := by
        by_cases haa : a = ' ' <;> by_cases hbb : b = ' '
        · rw [haa, hbb]
        · simp [slugChar, haa, hbb, hs2] at ha
          exact absurd ha.symm hd2
        · simp [slugChar, haa, hbb, hs1] at ha
          exact absurd ha hd1
        · simpa [slugChar, haa, hbb, hs1, hs2] using ha
      subst hab
      have ht := ih t2 (fun hm => d1 (List.mem_cons_of_mem _ hm))
        (fun hm => d2 (List.mem_cons_of_mem _ hm))
        (fun hm => s1 (List.mem_cons_of_mem _ hm))
        (fun hm => s2 (List.mem_cons_of_mem _ hm)) h.2
      rw [ht]

/-- C8, counterexample: the slug is not injective on the names the
validator and the add operation accept. The names a-space-b and
a-hyphen-b are both valid, both addable to one registry, distinct, and
slug to the same string. -/
theorem c8_slug_counterexample :
    validateName "a b" = true ∧ validateName "a-b" = true ∧
    ("a b" : String) ≠ "a-b" ∧ slugName "a b" = slugName "a-b" ∧
    addSyncItem [] "a b" "file" (fun _ => none) [] = .ok c8items1 ∧
    addSyncItem c8items1 "a-b" "file" (fun _ => none) [] =
      .ok (c8items1 ++ [⟨"a-b", "file", fun _ => none, []⟩]) := by
  exact ⟨by decide, by decide, by decide, rfl, rfl, rfl⟩

/-- C8, amended: the slug function is injective only on valid names
that contain no hyphen (valid names already exclude the slash); two
distinct valid hyphen-free names always slug to different strings,
while names differing only in spaces versus hyphens collide. -/
theorem c8_slug_injective_amended (n1 n2 : String)
    (h1 : validateName n1 = true) (h2 : validateName n2 = true)
    (d1 : '-' ∉ n1.data) (d2 : '-' ∉ n2.data)
    (heq : slugName n1 = slugName n2) : n1 = n2 := by
  have hslash : nameCharAllowed '/' = false := by decide
  have s1 : '/' ∉ n1.data := fun hm => by
    rw [validateName_chars n1 h1 '/' hm] at hslash
    exact Bool.noConfusion hslash
  have s2 : '/' ∉ n2.data := fun hm => by
    rw [validateName_chars n2 h2 '/' hm] at hslash
    exact Bool.noConfusion hslash
  rw [slugName_eq_map, slugName_eq_map] at heq
  have hmap : n1.data.map slugChar = n2.data.map slugChar :=
    congrArg String.data heq
  have hdata := slugChar_inj_on n1.data n2.data d1 d2 s1 s2 hmap
  cases n1 with
  | mk l1 =>
    cases n2 with
    | mk l2 => exact congrArg String.mk hdata

/-- Witness for the amended C8 theorem: a concrete hyphen-free valid
name, equal to itself under the slug comparison. -/
theorem c8_slug_injective_amended_witness :
    validateName "My Vim" = true ∧ ("My Vim" : String) = "My Vim" :=
  ⟨by decide, c8_slug_injective_amended "My Vim" "My Vim"
    (by decide) (by decide) (by decide) (by decide) rfl⟩

/-- C1: the decision engine is total — for every input tuple it returns
exactly one of Skip, Push, Pull, Conflict — and it picks the outcome the
specification's rules of section 4.6 dictate in the stated priority
order: skip when both sides are absent, push when only local exists,
pull when only cloud exists, skip on equal hashes, push when the
recorded last cloud hash equals the current cloud hash, conflict or
pull (by local mtime strictly newer) when the recorded hash differs
from the current cloud hash, and the mtime comparison with conflict on
a tie when no last cloud hash is recorded. -/
theorem c1_decision_engine_matches_spec :
    ∀ (le ce : Bool) (lh ch lch : Hash) (lm cm : Nat),
      smartSyncDecision ⟨le, ce, lh, ch, lm, cm, lch⟩ =
        specSmartDecision (cond le (some lh) none) (cond ce (some ch) none) lm cm
          (if lch = "" then none else some lch) := by
  intro le ce lh ch lch lm cm
  by_cases h1 : lh = ch <;> by_cases h2 : lch = "" <;> by_cases h3 : lch = ch <;>
    by_cases h4 : lm > cm <;> by_cases h5 : cm > lm <;> by_cases h6 : ch = "" <;>
    cases le <;> cases ce <;>
    simp [smartSyncDecision, specSmartDecision, h1, h2, h3, h4, h5, h6]

/-- C10: when a sync item has no path entry for the current computer,
`SyncEngine.SyncItem` returns, for each of Push, Pull and Smart, an
error message naming that computer, and leaves the engine state (files,
FileState, FileMetadata) exactly unchanged. -/
theorem c10_missing_path_errors (hashFn : Content → Hash) (expand : String → String)
    (self : String) (now : Nat) (dir : String) (op : SyncOperation)
    (item : SyncItem) (st : EngineState) (h : item.paths self = none) :
    syncItemOp hashFn expand self now dir op item st =
      (.error ("no path configured for computer " ++ squote ++ self ++ squote), st) := by
  simp [syncItemOp, getCurrentComputerPath, h]

/-- Witness for C10 at a concrete item and state: the path map has no
entry for computer h1, and the engine reports exactly the no-path error
while returning the state unchanged. -/
theorem c10_missing_path_errors_witness :
    itemNoPath.paths "h1" = none ∧
    syncItemOp id id "h1" 0 "cloud/configs" .smart itemNoPath stEmpty =
      (.error ("no path configured for computer " ++ squote ++ "h1" ++ squote), stEmpty) :=
  ⟨rfl, c10_missing_path_errors id id "h1" 0 "cloud/configs" .smart itemNoPath stEmpty rfl⟩

/-- C4, counterexample: with different hashes, a recorded last cloud
hash that differs from the current cloud hash, and equal mtimes, the
code does not report Conflict with errored = 1 — it pulls the cloud
copy over the local file (the local file is modified, the result counts
one change and zero errors). -/
theorem c4_conflict_tie_counterexample :
    (smartSyncFile id "h1" 10 "Vim" "L" "C" c4st).1 =
      .ok (mkResult 1 0 0 [] "Pulled Vim from cloud") ∧
    ((smartSyncFile id "h1" 10 "Vim" "L" "C" c4st).2).fs "L" =
      some ⟨"set ts=2", 10, 420⟩ := by
  constructor <;> rfl

/-- C4, amended: in the cloud-changed branch (recorded last cloud hash
present and different from the current cloud hash, hashes unequal),
equal mtimes make smart sync pull cloud to local — one file changed,
zero errors — and even when the local mtime is strictly newer the
conflict outcome modifies nothing but still reports zero in
`FilesErrored` (the conflict lives only in the error list). -/
theorem c4_conflict_tie_amended (hashFn : Content → Hash) (self : String) (now : Nat)
    (item localPath cloudPath : String) (st : EngineState)
    (lf cf : FileData) (md : FileMetadata)
    (hlf : st.fs localPath = some lf) (hcf : st.fs cloudPath = some cf)
    (hmd : st.metadata item localPath = some md)
    (hne : hashFn lf.contents ≠ hashFn cf.contents)
    (h1 : md.cloudHash ≠ "") (h2 : md.cloudHash ≠ hashFn cf.contents) :
    (lf.modTime = cf.modTime →
      (smartSyncFile hashFn self now item localPath cloudPath st).1 =
        .ok (mkResult 1 0 0 [] ("Pulled " ++ item ++ " from cloud")) ∧
      ((smartSyncFile hashFn self now item localPath cloudPath st).2).fs localPath =
        some ⟨cf.contents, now, cf.mode⟩) ∧
    (lf.modTime > cf.modTime →
      smartSyncFile hashFn self now item localPath cloudPath st =
        (.ok (mkResult 0 0 0
          ["Both local and cloud files have been modified since last sync"]
          ("Conflict detected for " ++ item ++ " - both files modified")), st)) := by
  constructor
  · intro heq
    have hngt : ¬ lf.modTime > cf.modTime := by omega
    simp only [smartSyncFile, hlf, hcf, hmd, if_neg hne]
    rw [if_neg (by simp [h2]), if_pos ⟨h1, h2⟩, if_neg hngt]
    simp [pullItem, hcf, updFn, updateFileMetadataOp]
  · intro hgt
    simp only [smartSyncFile, hlf, hcf, hmd, if_neg hne]
    rw [if_neg (by simp [h2]), if_pos ⟨h1, h2⟩, if_pos hgt]

/-- Witness for the amended C4 theorem at the concrete both-modified,
equal-mtime state: smart sync pulls and overwrites the local file. -/
theorem c4_conflict_tie_amended_witness :
    (smartSyncFile id "h1" 10 "Vim" "L" "C" c4st).1 =
      .ok (mkResult 1 0 0 [] ("Pulled " ++ "Vim" ++ " from cloud")) ∧
    ((smartSyncFile id "h1" 10 "Vim" "L" "C" c4st).2).fs "L" =
      some ⟨"set ts=2", 10, 420⟩ :=
  (c4_conflict_tie_amended id "h1" 10 "Vim" "L" "C" c4st
    ⟨"set ts=8", 5, 420⟩ ⟨"set ts=2", 5, 420⟩ c4md rfl rfl rfl
    (by decide) (by decide) (by decide)).1 rfl

/-- C3, counterexample: pushItem does not always mirror local to cloud.
When the recorded FileState hash equals the current local hash, the
push returns successfully as a skip while the cloud copy still holds
different bytes. -/
theorem c3_push_mirror_counterexample :
    (pushItem id "h1" 9 "Vim" "L" "C" c3cst).1 =
      .ok (mkResult 0 1 0 [] "Vim unchanged - skipped") ∧
    ((pushItem id "h1" 9 "Vim" "L" "C" c3cst).2).fs "C" = some ⟨"other", 2, 420⟩ ∧
    ("other" : String) ≠ "set ts=4" := by
  refine ⟨rfl, rfl, by decide⟩

/-- C3, amended: an explicit push of a file-kind item behaves in three
ways. When the local path is absent the push errors and leaves
everything (including the cloud copy) untouched. When the local file is
unchanged relative to its recorded FileState, the push skips and
changes nothing. When the file counts as changed, the push succeeds and
afterwards the cloud copy holds exactly the local contents and the
recorded FileState hash, the recorded cloud hash and the digest of both
files all agree. -/
theorem c3_push_mirror_amended (hashFn : Content → Hash) (self : String) (now : Nat)
    (item localPath cloudPath : String) (st : EngineState) :
    (st.fs localPath = none →
      pushItem hashFn self now item localPath cloudPath st =
        (.error ("local path does not exist: " ++ localPath), st)) ∧
    (∀ lf, st.fs localPath = some lf →
      isFileChanged hashFn item localPath st lf.contents = false →
      pushItem hashFn self now item localPath cloudPath st =
        (.ok (mkResult 0 1 0 [] (item ++ " unchanged - skipped")), st)) ∧
    (∀ lf, st.fs localPath = some lf →
      localPath ≠ cloudPath →
      isFileChanged hashFn item localPath st lf.contents = true →
      (pushItem hashFn self now item localPath cloudPath st).1 =
        .ok (mkResult 1 0 0 [] ("Pushed " ++ item ++ " to cloud")) ∧
      ((pushItem hashFn self now item localPath cloudPath st).2).fs cloudPath =
        some ⟨lf.contents, now, lf.mode⟩ ∧
      ((pushItem hashFn self now item localPath cloudPath st).2).fs localPath =
        some lf ∧
      ((pushItem hashFn self now item localPath cloudPath st).2).fileStates item localPath =
        some ⟨hashFn lf.contents, lf.modTime, lf.contents.utf8ByteSize, now⟩ ∧
      (((pushItem hashFn self now item localPath cloudPath st).2).metadata item localPath).map
          FileMetadata.cloudHash = some (hashFn lf.contents)) := by
  refine ⟨?_, ?_, ?_⟩
  · intro h
    simp [pushItem, h]
  · intro lf hlf hch
    simp [pushItem, hlf, hch]
  · intro lf hlf hne hch
    simp only [pushItem, hlf, hch]
    simp [updFn, updFn2, hne, hlf, updateFileMetadataOp, updateCloudHashOp]

/-- Witness for the amended C3 theorem: pushing a fresh file (no
recorded FileState) copies it to the cloud and records matching hashes
on both sides. -/
theorem c3_push_mirror_amended_witness :
    (pushItem id "h1" 9 "Vim" "L" "C" c3st).1 =
      .ok (mkResult 1 0 0 [] ("Pushed " ++ "Vim" ++ " to cloud")) ∧
    ((pushItem id "h1" 9 "Vim" "L" "C" c3st).2).fs "C" = some ⟨"set ts=4", 9, 420⟩ ∧
    ((pushItem id "h1" 9 "Vim" "L" "C" c3st).2).fs "L" = some ⟨"set ts=4", 3, 420⟩ ∧
    ((pushItem id "h1" 9 "Vim" "L" "C" c3st).2).fileStates "Vim" "L" =
      some ⟨id "set ts=4", 3, "set ts=4".utf8ByteSize, 9⟩ ∧
    (((pushItem id "h1" 9 "Vim" "L" "C" c3st).2).metadata "Vim" "L").map
      FileMetadata.cloudHash = some (id "set ts=4") :=
  (c3_push_mirror_amended id "h1" 9 "Vim" "L" "C" c3st).2.2
    ⟨"set ts=4", 3, 420⟩ rfl (by decide) rfl

/-- C2: the copy used by push is not the atomic temp-then-rename
writer. Evaluating the observable states of `copyFile` at a concrete
input shows the moment right after `os.Create`: the cloud target has
been truncated in place, holding neither the old nor the new complete
contents — an interruption here loses the prior bytes. -/
theorem c2_push_copy_not_atomic :
    ((copyFileStates 9 "Lv" "Cv" c2fs).getD 1 c2fs) "Cv" = some ⟨"", 9, 438⟩ ∧
    ((copyFileStates 9 "Lv" "Cv" c2fs).getD 0 c2fs) "Cv" = some ⟨"old", 2, 420⟩ ∧
    ((copyFileStates 9 "Lv" "Cv" c2fs).getD 3 c2fs) "Cv" = some ⟨"new", 9, 420⟩ ∧
    ("" : String) ≠ "old" ∧ ("" : String) ≠ "new" := by
  refine ⟨rfl, rfl, rfl, by decide, by decide⟩

/-- C5: `HashCache.Get` returns a cached hash exactly when the
validity predicate holds — the entry exists, its age is at most the
maximum age, and the current stat reports the recorded size and mtime —
and whenever `Get` returns nothing, `GetOrCalculate` recomputes the
hash over the file bytes and caches it with the fresh stat. -/
theorem c5_hash_cache_get_iff (hashFn : Content → Hash) (hc : HashCache)
    (fs : FileSystem) (now : Nat) (p : String) :
    (∀ h, hc.get fs now p = some h ↔ ∃ e, cacheValid hc fs now p e ∧ h = e.hash) ∧
    (hc.get fs now p = none → ∀ f, fs p = some f →
      hc.getOrCalculate hashFn fs now p =
        .ok (hashFn f.contents,
          hc.set now p (hashFn f.contents) f.contents.utf8ByteSize f.modTime)) := by
  constructor
  · intro h
    constructor
    · intro hg
      cases he : hc.entries p with
      | none => simp [HashCache.get, he] at hg
      | some e =>
        simp only [HashCache.get, he] at hg
        split_ifs at hg with hage
        cases hst : statOf fs p with
        | none => simp [hst] at hg
        | some info =>
          simp only [hst] at hg
          split_ifs at hg with hmm
          push_neg at hmm
          simp only [Option.some.injEq] at hg
          refine ⟨e, ⟨he, by omega, ?_⟩, hg.symm⟩
          rw [hst, ← hmm.1, ← hmm.2]
    · rintro ⟨e, ⟨he, hage, hst⟩, rfl⟩
      simp only [HashCache.get, he, hst]
      rw [if_neg (by omega)]
      simp
  · intro hnone f hf
    simp only [HashCache.getOrCalculate, hnone, hf, statOf]

/-- Witness for C5: at a concrete cache and file, a fresh entry is
returned by `Get`, and once the entry has aged out `GetOrCalculate`
recomputes the hash and re-caches it with the current stat. -/
theorem c5_hash_cache_get_iff_witness :
    c5hc.get c5fs 9 "L" = some "set ts=4" ∧
    HashCache.getOrCalculate id c5hc c5fs 20 "L" =
      .ok ("set ts=4", c5hc.set 20 "L" "set ts=4" 8 3) :=
  ⟨((c5_hash_cache_get_iff id c5hc c5fs 9 "L").1 "set ts=4").2
      ⟨⟨"set ts=4", 8, 3, 4⟩, ⟨rfl, by decide, rfl⟩, rfl⟩,
    (c5_hash_cache_get_iff id c5hc c5fs 20 "L").2 (by decide)
      ⟨"set ts=4", 3, 420⟩ rfl⟩

/-- C6: the atomic writer is all-or-nothing. At every state a concurrent
reader can observe during `WriteFileAtomic`, the target holds either
its prior value or the complete new contents; the successful commit
installs the new contents and removes the temp file; a second `Commit`
on the same writer fails with the already-committed error; and a
rollback after writing leaves the target at its prior value with the
temp file removed. -/
theorem c6_atomic_writer (target temp : String) (data : Content) (perm now : Nat)
    (fs : FileSystem) (h : temp ≠ target) :
    (∀ s ∈ writeFileAtomicStates target temp data perm now fs,
        s target = fs target ∨ s target = some ⟨data, now, perm⟩) ∧
    (∃ w fsF, writeFileAtomic target temp data perm now fs = .ok (w, fsF) ∧
        fsF target = some ⟨data, now, perm⟩ ∧ fsF temp = none) ∧
    (∀ w fsF, writeFileAtomic target temp data perm now fs = .ok (w, fsF) →
        fwCommit w fsF = .error "file already committed") ∧
    (∀ fs2, fwWrite ⟨target, temp, true, false⟩ data
        (updFn fs temp ⟨"", now, perm⟩) = .ok fs2 →
      (fwRollback ⟨target, temp, true, false⟩ fs2).2 target = fs target ∧
      (fwRollback ⟨target, temp, true, false⟩ fs2).2 temp = none) := by
  have hemp : ("" : String) ++ data = data := rfl
  have hwrite : fwWrite ⟨target, temp, true, false⟩ data (updFn fs temp ⟨"", now, perm⟩) =
      .ok (updFn (updFn fs temp ⟨"", now, perm⟩) temp ⟨data, now, perm⟩) := by
    simp [fwWrite, updFn, hemp]
  have hcommit : fwCommit ⟨target, temp, true, false⟩
      (updFn (updFn fs temp ⟨"", now, perm⟩) temp ⟨data, now, perm⟩) =
      .ok (⟨target, temp, false, true⟩,
        updFn (remFn (updFn (updFn fs temp ⟨"", now, perm⟩) temp ⟨data, now, perm⟩) temp)
          target ⟨data, now, perm⟩) := by
    simp [fwCommit, updFn]
  have hwfa : writeFileAtomic target temp data perm now fs =
      .ok (⟨target, temp, false, true⟩,
        updFn (remFn (updFn (updFn fs temp ⟨"", now, perm⟩) temp ⟨data, now, perm⟩) temp)
          target ⟨data, now, perm⟩) := by
    simp only [writeFileAtomic, newFileWriter, hwrite, hcommit]
  have hstates : writeFileAtomicStates target temp data perm now fs =
      [fs, updFn fs temp ⟨"", now, perm⟩,
        updFn (updFn fs temp ⟨"", now, perm⟩) temp ⟨data, now, perm⟩,
        updFn (remFn (updFn (updFn fs temp ⟨"", now, perm⟩) temp ⟨data, now, perm⟩) temp)
          target ⟨data, now, perm⟩] := by
    simp only [writeFileAtomicStates, newFileWriter, hwrite, hcommit]
  refine ⟨?_, ?_, ?_, ?_⟩
  · intro s hs
    rw [hstates] at hs
    simp only [List.mem_cons, List.not_mem_nil, or_false] at hs
    rcases hs with rfl | rfl | rfl | rfl <;>
      simp [updFn, remFn, h, Ne.symm h]
  · exact ⟨_, _, hwfa, by simp [updFn], by simp [updFn, remFn, h, Ne.symm h]⟩
  · intro w fsF hok
    rw [hwfa] at hok
    have hpair := Except.ok.inj hok
    have hw : (⟨target, temp, false, true⟩ : FileWriter) = w := congrArg Prod.fst hpair
    rw [← hw]
    simp [fwCommit]
  · intro fs2 hok
    rw [hwrite] at hok
    obtain rfl := Except.ok.inj hok
    simp [fwRollback, updFn, remFn, h, Ne.symm h]

/-- Witness for C6 at a concrete target, temp path and contents: the
atomic write succeeds, the target holds the new bytes and the temp file
is gone. -/
theorem c6_atomic_writer_witness :
    ∃ w fsF, writeFileAtomic "T" ".T.tmp.1" "hello" 420 3 stEmpty.fs = .ok (w, fsF) ∧
      fsF "T" = some ⟨"hello", 3, 420⟩ ∧ fsF ".T.tmp.1" = none :=
  (c6_atomic_writer "T" ".T.tmp.1" "hello" 420 3 stEmpty.fs (by decide)).2.1

/-- Refreshing an entry in place does not change the manifest's
(item, hash) keys. -/
theorem map_backupKey_refreshFirst (item : String) (h : Hash) (now : Nat)
    (reason : String) (tags : List String) (l : List BackupEntry) :
    (refreshFirst item h now reason tags l).map backupKey = l.map backupKey := by
  induction l with
  | nil => rfl
  | cons e rest ih =>
    simp only [refreshFirst]
    split_ifs with hc
    · simp [backupKey]
    · simp only [List.map_cons, ih]

/-- Refreshing an entry in place does not change the manifest's
length. -/
theorem refreshFirst_length (item : String) (h : Hash) (now : Nat)
    (reason : String) (tags : List String) (l : List BackupEntry) :
    (refreshFirst item h now reason tags l).length = l.length := by
  induction l with
  | nil => rfl
  | cons e rest ih =>
    simp only [refreshFirst]
    split_ifs with hc <;> simp [ih]

/-- Removing the first entry with an id keeps a sublist of the
manifest. -/
theorem removeFirstById_sublist (bid : String) (l : List BackupEntry) :
    List.Sublist (removeFirstById bid l) l := by
  induction l with
  | nil => exact List.Sublist.refl _
  | cons e rest ih =>
    simp only [removeFirstById]
    split_ifs with hc
    · exact List.sublist_cons_self e rest
    · exact List.Sublist.cons₂ e ih

/-- Deleting one backup id keeps a sublist of the manifest. -/
theorem deleteEntryById_fst_sublist (p : List BackupEntry × FileSystem) (bid : String) :
    List.Sublist (deleteEntryById p bid).1 p.1 := by
  unfold deleteEntryById
  rcases hf : p.1.find? (fun e => e.id == bid) with _ | e <;> rw [hf]
  all_goals
    first
    | exact List.Sublist.refl _
    | exact removeFirstById_sublist _ _

/-- Folding deletions over any id list keeps a sublist of the
manifest. -/
theorem foldl_deleteEntryById_sublist (ids : List String) :
    ∀ (p : List BackupEntry × FileSystem), List.Sublist (ids.foldl deleteEntryById p).1 p.1 := by
  induction ids with
  | nil => intro p; exact List.Sublist.refl _
  | cons i rest ih =>
    intro p
    exact (ih (deleteEntryById p i)).trans (deleteEntryById_fst_sublist p i)

/-- Eviction keeps a sublist of the manifest it is given. -/
theorem cleanupOldBackups_fst_sublist (cfg : BackupConfig) (now : Nat) (item : String)
    (entries : List BackupEntry) (fs : FileSystem) :
    List.Sublist (cleanupOldBackups cfg now item entries fs).1 entries := by
  unfold cleanupOldBackups
  exact foldl_deleteEntryById_sublist _ _

/-- When the dedup scan finds nothing, the new (item, hash) key is not
among the manifest's keys. -/
theorem find?_none_key (entries : List BackupEntry) (item : String) (h : Hash)
    (hf : entries.find? (fun e => e.itemName == item && e.hash == h) = none) :
    (item, h) ∉ entries.map backupKey := by
  intro hmem
  obtain ⟨e, he, hkey⟩ := List.mem_map.1 hmem
  have hpred := List.find?_eq_none.1 hf e he
  have h1 : e.itemName = item := congrArg Prod.fst hkey
  have h2 : e.hash = h := congrArg Prod.snd hkey
  apply hpred
  simp [h1, h2]

/-- One `BackupFile` call preserves the at-most-one-entry-per-key
invariant of the manifest. -/
theorem backupFile_preserves_inv (hashFn : Content → Hash) (cfg : BackupConfig)
    (self : String) (now : Nat) (item path reason : String) (tags : List String)
    (entries : List BackupEntry) (fs : FileSystem)
    (hinv : manifestDedupInv entries) (e : BackupEntry) (m2 : List BackupEntry)
    (fs2 : FileSystem)
    (hok : backupFile hashFn cfg self now item path reason tags entries fs =
      .ok (e, m2, fs2)) :
    manifestDedupInv m2 := by
  unfold backupFile at hok
  rcases hff : fs path with _ | f
  · rw [hff] at hok
    exact Except.noConfusion hok
  · rw [hff] at hok
    simp only at hok
    rcases hfind : entries.find?
        (fun x => x.itemName == item && x.hash == hashFn f.contents) with _ | e0
    · rw [hfind] at hok
      rcases hcl : cleanupOldBackups cfg now item
          (entries ++ [⟨generateBackupID item now (hashFn f.contents), item, path,
            cfg.backupDir ++ "/files/" ++ generateBackupID item now (hashFn f.contents),
            hashFn f.contents, f.contents.utf8ByteSize, now, self, reason, tags⟩])
          (updFn fs (cfg.backupDir ++ "/files/" ++ generateBackupID item now (hashFn f.contents))
            ⟨f.contents, now, f.mode⟩) with ⟨ents2, fsys2⟩
      rw [hcl] at hok
      have hpair := Except.ok.inj hok
      have hm2 : ents2 = m2 := congrArg (fun q => q.2.1) hpair
      have happ : manifestDedupInv (entries ++
          [⟨generateBackupID item now (hashFn f.contents), item, path,
            cfg.backupDir ++ "/files/" ++ generateBackupID item now (hashFn f.contents),
            hashFn f.contents, f.contents.utf8ByteSize, now, self, reason, tags⟩]) := by
        unfold manifestDedupInv at hinv ⊢
        rw [List.map_append]
        rw [List.nodup_append]
        refine ⟨hinv, List.nodup_singleton _, ?_⟩
        intro k hk hk2
        simp only [List.map_cons, List.map_nil, List.mem_singleton] at hk2
        subst hk2
        exact find?_none_key entries item (hashFn f.contents) hfind hk
      have hsub : List.Sublist ents2 (entries ++
          [⟨generateBackupID item now (hashFn f.contents), item, path,
            cfg.backupDir ++ "/files/" ++ generateBackupID item now (hashFn f.contents),
            hashFn f.contents, f.contents.utf8ByteSize, now, self, reason, tags⟩]) := by
        have := cleanupOldBackups_fst_sublist cfg now item
          (entries ++ [⟨generateBackupID item now (hashFn f.contents), item, path,
            cfg.backupDir ++ "/files/" ++ generateBackupID item now (hashFn f.contents),
            hashFn f.contents, f.contents.utf8ByteSize, now, self, reason, tags⟩])
          (updFn fs (cfg.backupDir ++ "/files/" ++
            generateBackupID item now (hashFn f.contents)) ⟨f.contents, now, f.mode⟩)
        rw [hcl] at this
        exact this
      rw [← hm2]
      exact List.Nodup.sublist (hsub.map backupKey) happ
    · rw [hfind] at hok
      have hpair := Except.ok.inj hok
      have hm2 : refreshFirst item (hashFn f.contents) now reason tags entries = m2 :=
        congrArg (fun q => q.2.1) hpair
      rw [← hm2]
      unfold manifestDedupInv at hinv ⊢
      rw [map_backupKey_refreshFirst]
      exact hinv

/-- Any sequence of `BackupFile` calls preserves the manifest
invariant. -/
theorem runBackups_preserves_inv (hashFn : Content → Hash) (cfg : BackupConfig)
    (self : String) (calls : List BackupCall) :
    ∀ m fs, manifestDedupInv m →
      manifestDedupInv (runBackups hashFn cfg self calls (m, fs)).1 := by
  induction calls with
  | nil => intro m fs h; exact h
  | cons c rest ih =>
    intro m fs h
    simp only [runBackups]
    rcases hb : backupFile hashFn cfg self c.now c.item c.path c.reason c.tags m fs
      with err | ⟨e, m2, fs2⟩
    · exact ih m fs h
    · exact ih m2 fs2
        (backupFile_preserves_inv hashFn cfg self c.now c.item c.path c.reason c.tags
          m fs h e m2 fs2 hb)

/-- C7: the backup manifest is content-addressed. Starting from the
empty manifest, any sequence of `BackupFile` calls leaves at most one
entry per (item name, hash) pair; and a `BackupFile` call whose content
hash already has an entry for that item refreshes that entry's
timestamp, reason and tags in place and returns it — the manifest keeps
the same length and keys and the filesystem is untouched (no second
payload copy). -/
theorem c7_backup_dedup (hashFn : Content → Hash) (cfg : BackupConfig) (self : String) :
    (∀ calls fs0, manifestDedupInv ((runBackups hashFn cfg self calls ([], fs0)).1)) ∧
    (∀ (now : Nat) (item path reason : String) (tags : List String)
        (entries : List BackupEntry) (fs : FileSystem) (f : FileData) (e : BackupEntry),
      fs path = some f →
      entries.find? (fun x => x.itemName == item && x.hash == hashFn f.contents) = some e →
      backupFile hashFn cfg self now item path reason tags entries fs =
        .ok ({ e with createdAt := now, reason := reason, tags := tags },
          refreshFirst item (hashFn f.contents) now reason tags entries, fs) ∧
      (refreshFirst item (hashFn f.contents) now reason tags entries).length =
        entries.length ∧
      (refreshFirst item (hashFn f.contents) now reason tags entries).map backupKey =
        entries.map backupKey) := by
  constructor
  · intro calls fs0
    exact runBackups_preserves_inv hashFn cfg self calls [] fs0 (by simp [manifestDedupInv])
  · intro now item path reason tags entries fs f e hf hfind
    refine ⟨?_, refreshFirst_length _ _ _ _ _ _, map_backupKey_refreshFirst _ _ _ _ _ _⟩
    unfold backupFile
    rw [hf]
    simp only [hfind]

/-- Witness for C7: a concrete manifest already holding an entry for
the file's contents; backing the file up again refreshes that entry and
copies nothing, and the empty-manifest invariant holds after no
calls. -/
theorem c7_backup_dedup_witness :
    manifestDedupInv ((runBackups id c7cfg "h1" [] ([], c7fs)).1) ∧
    backupFile id c7cfg "h1" 5 "It" "f" "r1" ["t"] [c7e0] c7fs =
      .ok ({ c7e0 with createdAt := 5, reason := "r1", tags := ["t"] },
        refreshFirst "It" (id "a") 5 "r1" ["t"] [c7e0], c7fs) :=
  ⟨(c7_backup_dedup id c7cfg "h1").1 [] c7fs,
    ((c7_backup_dedup id c7cfg "h1").2 5 "It" "f" "r1" ["t"] [c7e0] c7fs
      ⟨"a", 1, 420⟩ c7e0 rfl (by decide)).1⟩

end SyncStation
